import Mathlib

/-
Shallow embedding of `src/gmail.py` (the concurrent IMAP scrape engine of the
`mail_analysis` repository) together with proofs about it.

The embedding covers:

* `Gmail.get_mailboxes`, `Gmail.fetch_message_ids`, `Gmail.fetch_message`
  (gmail.py lines 37-70).  The underlying `imaplib` connection is modelled by
  the `Imap` structure: a pure description of the server's response to each
  command.  Two pieces of `imaplib` behaviour that the python wrapper relies on
  are modelled explicitly and are commented at their use sites: commands that
  require a selected mailbox (SEARCH, FETCH) raise `imaplib.error` when the
  preceding SELECT did not succeed (a failed SELECT resets the session state to
  AUTH), and a non-OK status is otherwise returned to the caller for
  inspection.

* the session pool and worker dispatch of `scrape` (gmail.py lines 88-139):
  `avail_connections = manager.list(range(CONNECTION_POOL_SIZE))`, the
  `round_robin_connections` worker body (pop the last available connection id
  under the lock, run the task's operation, append the id back under the lock;
  on an exception the append is skipped because the exception propagates first)
  and the `pool.map_async(...).get()` fan-out/fan-in, whose result list is
  positionally aligned with the submitted task list and which raises the first
  task exception from `get()`.

  Concurrency is embedded as a small-step machine: `PoolState` is the shared
  state between lock-protected transitions, a `Choice` selects which worker
  step runs next, and a schedule (a `List Choice`) resolves all the
  nondeterminism of thread interleaving.  `Choice.acq i` is worker pickup of
  task `i` plus the lock-protected pop; `Choice.fin i` is completion of task
  `i`: the operation's result (or exception) followed by the lock-protected
  append (skipped on exception) and the recording of the result at slot `i`.
  Properties quantified over all schedules therefore hold for every thread
  interleaving.

* the `scrape` pipeline itself (default mailboxes, phase A, flatten, phase B)
  and the `__main__` wiring (gmail.py lines 142-159).
-/

namespace MailAnalysis

/-- gmail.py line 17: `IMAP_OK = 'OK'`. -/
def IMAP_OK : String := "OK"

/-- gmail.py line 15: `CONNECTION_POOL_SIZE = 10`. -/
def CONNECTION_POOL_SIZE : Nat := 10

/-- Pure model of the IMAP server behind one `imaplib.IMAP4_SSL` connection.
Every `Gmail` object in one `scrape` run talks to the same server with the same
credentials, so a single `Imap` value models all pool connections.
`rawList` is the data list returned by `imap.list()` (its status is ignored by
`get_mailboxes`, exactly as in the source).  `selectStatus m` is the status of
`imap.select(m)`; `searchStatus m` / `searchIds m` are the status and the
(already whitespace-split) id list of `imap.search(None, 'ALL')` while `m` is
selected; `fetchStatus m i` / `fetchBody m i` are the status and the body
`content[0][1]` of `imap.fetch(i, '(RFC822)')` while `m` is selected. -/
structure Imap where
  rawList : List String
  selectStatus : String → String
  searchStatus : String → String
  searchIds : String → List String
  fetchStatus : String → String → String
  fetchBody : String → String → String

/-- python's `s.split('" "')`, on character lists: cut at every
(non-overlapping, leftmost-first) occurrence of the three-character
separator quote-space-quote, keeping empty pieces. -/
def splitQuoteSpaceQuote : List Char → List (List Char)
  | '\x22' :: ' ' :: '\x22' :: rest => [] :: splitQuoteSpaceQuote rest
  | c :: rest =>
    match splitQuoteSpaceQuote rest with
    | [] => [[c]]
    | piece :: pieces => (c :: piece) :: pieces
  | [] => [[]]

/-- gmail.py line 39:
`parse_mailbox = lambda mailbox: mailbox.split('" "')[-1][:-1]`
(`[-1]` takes the last piece, `[:-1]` drops its final character). -/
def parse_mailbox (mailbox : String) : String :=
  ⟨((splitQuoteSpaceQuote mailbox.toList).getLastD []).dropLast⟩

/-- Decides python's `'[Gmail]' in m` (substring containment) on the character
list of `m`. -/
def containsGmail : List Char → Bool
  | '[' :: 'G' :: 'm' :: 'a' :: 'i' :: 'l' :: ']' :: _ => true
  | _ :: rest => containsGmail rest
  | [] => false

/-- gmail.py lines 37-41, `Gmail.get_mailboxes`: drop every raw list entry that
contains the `'[Gmail]'` marker, parse the rest.  (`scrape` immediately wraps
the generator in `list(...)`, so a `List` is returned here.) -/
def get_mailboxes (imap : Imap) : List String :=
  (imap.rawList.filter (fun m => !containsGmail m.toList)).map parse_mailbox

/-- gmail.py lines 43-56, `Gmail.fetch_message_ids`.  The source assigns
`status = self.imap.select(mailbox)` but immediately overwrites `status` with
the search status, so its own `if status != IMAP_OK` check only inspects the
search status.  A failed SELECT still aborts the operation, through `imaplib`
itself: `IMAP4.select` resets the connection state to AUTH when the server
answers non-OK, and `IMAP4.search` then raises
`imaplib.error("command SEARCH illegal in state AUTH, ...")` before any status
is produced.  The first branch models that library-level exception. -/
def fetch_message_ids (imap : Imap) (mailbox : String) :
    Except String (String × List String) :=
  if imap.selectStatus mailbox ≠ IMAP_OK then
    .error ("command SEARCH illegal in state AUTH, only allowed in states SELECTED")
  else if imap.searchStatus mailbox ≠ IMAP_OK then
    .error ("Failed to fetch messages for mailbox " ++ mailbox ++ ".")
  else
    .ok (mailbox, imap.searchIds mailbox)

/-- gmail.py lines 58-70, `Gmail.fetch_message`.  The SELECT status is
discarded by the source (`self.imap.select(mailbox)` on a bare line); as in
`fetch_message_ids`, a failed SELECT surfaces as the `imaplib.error` raised by
the subsequent FETCH in state AUTH (first branch).  Otherwise a non-OK fetch
status raises the wrapper's own exception, and on success the parsed message
(modelled by its body string `content[0][1]`) is returned. -/
def fetch_message (imap : Imap) (mailbox messageNum : String) :
    Except String String :=
  if imap.selectStatus mailbox ≠ IMAP_OK then
    .error ("command FETCH illegal in state AUTH, only allowed in states SELECTED")
  else if imap.fetchStatus mailbox messageNum ≠ IMAP_OK then
    .error ("Failed to retrieve message " ++ messageNum ++
            " from mailbox " ++ mailbox ++ ".")
  else
    .ok (imap.fetchBody mailbox messageNum)

/-- gmail.py line 112: `connection_id = avail_connections.pop()` — python's
`list.pop()` removes and returns the LAST element.  `none` is the
`IndexError: pop from empty list` case. -/
def acquireOp (avail : List Nat) : Option (Nat × List Nat) :=
  match avail.getLast? with
  | some c => some (c, avail.dropLast)
  | none => none

/-- gmail.py line 116: `avail_connections.append(connection_id)`. -/
def releaseOp (avail : List Nat) (c : Nat) : List Nat :=
  avail ++ [c]

/-- Shared state of one `pool.map_async(round_robin_connections, tasks).get()`
run, as observable between lock-protected transitions.

`pending` holds the indices of tasks no worker has picked up yet; `inProgress`
holds `(task index, connection id)` for workers between their pop and their
append; `results` is the `map_async` result slot per task; `avail` is
`avail_connections`; `leaked` holds connection ids popped by a worker whose
task then raised (the exception propagates before line 116 runs, so the id is
never appended back); `err` is the first task exception, which `get()` will
re-raise; `exhausted` records that a worker executed `avail_connections.pop()`
on an empty list (`IndexError`). -/
structure PoolState (β : Type) where
  pending : List Nat
  inProgress : List (Nat × Nat)
  results : List (Option β)
  avail : List Nat
  leaked : List Nat
  err : Option String
  exhausted : Bool
deriving Repr, DecidableEq

/-- One scheduler decision: `acq i` = a worker picks up task `i` and performs
the lock-protected pop (gmail.py lines 111-113); `fin i` = the worker running
task `i` finishes the operation and performs the lock-protected append plus
result recording (lines 114-117), or, when the operation raised, leaks its
connection and stores the exception for `get()`. -/
inductive Choice where
  | acq (i : Nat)
  | fin (i : Nat)
deriving Repr, DecidableEq

/-- Apply one scheduled worker step to the shared state.  Steps whose
precondition does not hold (task not pending / not running) leave the state
unchanged: no worker can take them. -/
def applyChoice {α β : Type} (f : α → Except String β) (tasks : List α)
    (s : PoolState β) : Choice → PoolState β
  | .acq i =>
    if i ∈ s.pending then
      match acquireOp s.avail with
      | some (c, rest) =>
        { s with pending := s.pending.erase i
                 inProgress := (i, c) :: s.inProgress
                 avail := rest }
      | none => { s with exhausted := true }
    else s
  | .fin i =>
    match s.inProgress.find? (fun p => p.fst == i), tasks[i]? with
    | some pc, some t =>
      let prog := s.inProgress.filter (fun p => p.fst != i)
      match f t with
      | .ok b =>
        { s with inProgress := prog
                 results := s.results.set i (some b)
                 avail := releaseOp s.avail pc.snd }
      | .error e =>
        { s with inProgress := prog
                 leaked := pc.snd :: s.leaked
                 err := some (s.err.getD e) }
    | _, _ => s

/-- State at the start of a `map_async` run: every task pending, no results,
`avail_connections = manager.list(range(N))` (gmail.py line 99). -/
def initState (β : Type) (numTasks N : Nat) : PoolState β :=
  { pending := List.range numTasks
    inProgress := []
    results := List.replicate numTasks none
    avail := List.range N
    leaked := []
    err := none
    exhausted := false }

/-- Run a whole schedule from the initial state. -/
def runSched {α β : Type} (f : α → Except String β) (tasks : List α)
    (N : Nat) (sched : List Choice) : PoolState β :=
  sched.foldl (applyChoice f tasks) (initState β tasks.length N)

/-- All tasks picked up and completed: the `map_async` job is done. -/
def terminal {β : Type} (s : PoolState β) : Bool :=
  s.pending.isEmpty && s.inProgress.isEmpty

/-- `job.get()` on the final state: re-raise the first task exception if one
was stored, otherwise hand back the filled result slots. -/
def collect {β : Type} (s : PoolState β) : Except String (List β) :=
  match s.err with
  | some e => .error e
  | none => .ok (s.results.filterMap id)

/-- `pool.map_async(round_robin_connections, tasks); job.get()` under a given
worker schedule (gmail.py lines 128-129 and 135-137). -/
def mapAsyncGet {α β : Type} (f : α → Except String β) (tasks : List α)
    (N : Nat) (sched : List Choice) : Except String (List β) :=
  collect (runSched f tasks N sched)

/-- gmail.py line 119: `workers = min(len(connections), multiprocessing.cpu_count() * 2)`. -/
def workers (numConnections cpuCount : Nat) : Nat :=
  min numConnections (cpuCount * 2)

/-- A schedule respects the thread bound `W`: whenever a worker picks up a task
(a meaningful `acq`), fewer than `W` workers are currently between their pop
and their append.  A `ThreadPool(W)` has only `W` threads, and a thread holds
at most one connection at a time, so every real interleaving is `W`-bounded. -/
def wBounded {α β : Type} (f : α → Except String β) (tasks : List α) (W : Nat) :
    PoolState β → List Choice → Bool
  | _, [] => true
  | s, ch :: rest =>
    (match ch with
     | .acq i => !decide (i ∈ s.pending) || decide (s.inProgress.length < W)
     | .fin _ => true)
    && wBounded f tasks W (applyChoice f tasks s ch) rest

/-- The connection ids of `range(CONNECTION_POOL_SIZE)`, with which `scrape`
builds its `connections` list (gmail.py lines 88-89): the pool size is the
module constant, not a parameter of `scrape`. -/
def scrapeConnectionIds : List Nat := List.range CONNECTION_POOL_SIZE

/-- gmail.py lines 122-123: default to `list(connections[0].get_mailboxes())`
when the caller passes no mailbox list. -/
def scrapeMailboxes (imap : Imap) (mailboxes : Option (List String)) :
    List String :=
  match mailboxes with
  | some mbs => mbs
  | none => get_mailboxes imap

/-- gmail.py line 133:
`flat = [(mailbox, id_) for mailbox, ids in message_ids for id_ in ids]`. -/
def flattenIds : List (String × List String) → List (String × String)
  | [] => []
  | p :: rest => p.snd.map (fun i => (p.fst, i)) ++ flattenIds rest

/-- gmail.py lines 73-139, `scrape`: two `map_async` phases over the shared
connection pool, each resolved by a worker schedule (`s1` for the
`fetch_message_ids` phase, `s2` for the `fetch_message` phase).  An exception
raised by `job.get()` aborts the whole call (`Except` bind). -/
def scrape (imap : Imap) (mailboxes : Option (List String))
    (s1 s2 : List Choice) : Except String (List String) := do
  let mbs := scrapeMailboxes imap mailboxes
  let message_ids ←
    mapAsyncGet (fetch_message_ids imap) mbs scrapeConnectionIds.length s1
  let flat := flattenIds message_ids
  let messages ←
    mapAsyncGet (fun p => fetch_message imap p.fst p.snd) flat
      scrapeConnectionIds.length s2
  return messages

/-- gmail.py lines 146-156: the parsed command line.  `connections` is the
value of `--connections` (default `CONNECTION_POOL_SIZE`). -/
structure MainArgs where
  host : String
  username : String
  password : String
  outputFile : String
  mailboxes : Option (List String)
  connections : Nat

/-- Number of IMAP sessions the `__main__` invocation
`scrape(args.host, args.username, args.password, mailboxes=args.mailboxes)`
creates: `args.connections` is never passed on, so `scrape` always builds
`len(range(CONNECTION_POOL_SIZE))` connections (gmail.py lines 88-89, 156). -/
def mainSessionCount (args : MainArgs) : Nat :=
  scrapeConnectionIds.length

/-- Connection ids currently checked out of the pool: ids held by a worker
between its pop and its append, plus ids permanently kept by workers whose
task raised (the append on gmail.py line 116 never ran for them). -/
def leasedIds {β : Type} (s : PoolState β) : List Nat :=
  s.inProgress.map Prod.snd ++ s.leaked

/-- Invariant of the shared state along any schedule of one `map_async` run:
bookkeeping lists are duplicate-free and consistent, result slots mirror task
status (pending/running slots still empty, completed slots hold the
operation's outcome), the stored exception is the exception of some completed
task and is set as soon as a task has failed, and the connection ids of
`range(N)` split exactly into the available, held and leaked ones. -/
structure Inv {α β : Type} (f : α → Except String β) (tasks : List α) (N : Nat)
    (s : PoolState β) : Prop where
  resLen : s.results.length = tasks.length
  pendLt : ∀ i ∈ s.pending, i < tasks.length
  pendNodup : s.pending.Nodup
  progNodup : (s.inProgress.map Prod.fst).Nodup
  pendProg : ∀ i ∈ s.pending, ∀ p ∈ s.inProgress, p.fst ≠ i
  resPend : ∀ i ∈ s.pending, s.results[i]? = some none
  resProg : ∀ p ∈ s.inProgress, s.results[p.fst]? = some none
  resDone : ∀ i t, tasks[i]? = some t → i ∉ s.pending →
      (∀ p ∈ s.inProgress, p.fst ≠ i) → s.results[i]? = some (f t).toOption
  errSound : ∀ e, s.err = some e → ∃ i t, tasks[i]? = some t ∧ f t = .error e ∧
      i ∉ s.pending ∧ (∀ p ∈ s.inProgress, p.fst ≠ i)
  errDone : ∀ i t, tasks[i]? = some t → i ∉ s.pending →
      (∀ p ∈ s.inProgress, p.fst ≠ i) → (f t).isOk = false → s.err.isSome = true
  pool : (s.avail : Multiset Nat) + ↑(s.inProgress.map Prod.snd) + ↑s.leaked
      = Multiset.range N

instance {ε α : Type} [DecidableEq ε] [DecidableEq α] :
    DecidableEq (Except ε α) := fun a b =>
  match a, b with
  | .error e₁, .error e₂ =>
    match decEq e₁ e₂ with
    | isTrue h => isTrue (by rw [h])
    | isFalse h => isFalse (by intro hc; cases hc; exact h rfl)
  | .error _, .ok _ => isFalse (by intro hc; cases hc)
  | .ok _, .error _ => isFalse (by intro hc; cases hc)
  | .ok a₁, .ok a₂ =>
    match decEq a₁ a₂ with
    | isTrue h => isTrue (by rw [h])
    | isFalse h => isFalse (by intro hc; cases hc; exact h rfl)

/-- Test-double server for the end-to-end scenario of spec §8: INBOX
enumerates ids `1, 2` and Sent enumerates id `3`; every status is OK; the
fetched body of `(mb, i)` is the string `mb:i`; the raw mailbox listing
contains two `[Gmail]` reserved-namespace entries. -/
def demoImap : Imap where
  rawList := ["(\\HasNoChildren) \"/\" \"INBOX\"",
              "(\\HasNoChildren) \"/\" \"Sent\"",
              "(\\HasChildren \\Noselect) \"/\" \"[Gmail]\"",
              "(\\All \\HasNoChildren) \"/\" \"[Gmail]/All Mail\""]
  selectStatus := fun _ => "OK"
  searchStatus := fun _ => "OK"
  searchIds := fun mb =>
    if mb = "INBOX" then ["1", "2"] else if mb = "Sent" then ["3"] else []
  fetchStatus := fun _ _ => "OK"
  fetchBody := fun mb i => mb ++ ":" ++ i

/-- `demoImap` with a failing fetch for `(Sent, 3)` (spec §8 fault
scenario). -/
def faultImap : Imap :=
  { demoImap with
    fetchStatus := fun mb i => if mb = "Sent" ∧ i = "3" then "NO" else "OK" }

/-- `demoImap` with every SELECT rejected. -/
def selFailImap : Imap := { demoImap with selectStatus := fun _ => "NO" }

/-- `demoImap` with every SEARCH answered non-OK. -/
def searchFailImap : Imap := { demoImap with searchStatus := fun _ => "NO" }

/-- Task function with one raising task: task `0` raises, the rest
succeed. -/
def c6BadTask : Nat → Except String Nat :=
  fun n => if n == 0 then .error "boom" else .ok n

/-! ### Basic facts about the pool primitives -/

theorem acquireOp_eq {avail rest : List Nat} {c : Nat}
    (h : acquireOp avail = some (c, rest)) : avail = rest ++ [c] := by
  unfold acquireOp at h
  cases hl : avail.getLast? with
  | none => rw [hl] at h; exact absurd h (by simp)
  | some a =>
    rw [hl] at h
    have hne : avail ≠ [] := by intro hn; subst hn; simp at hl
    rw [List.getLast?_eq_getLast avail hne] at hl
    obtain ⟨rfl, rfl⟩ : c = a ∧ rest = avail.dropLast := by
      constructor <;> · injection h with h'; cases h'; rfl
    injection hl with hl'
    rw [← hl']
    exact (List.dropLast_append_getLast hne).symm

theorem acquireOp_isSome {avail : List Nat} (h : avail ≠ []) :
    ∃ c rest, acquireOp avail = some (c, rest) := by
  unfold acquireOp
  cases hl : avail.getLast? with
  | none =>
    rw [List.getLast?_eq_getLast avail h] at hl
    exact absurd hl (by simp)
  | some a => exact ⟨a, avail.dropLast, rfl⟩

/-- A `find?` hit on a key-nodup association list splits the list, up to
permutation, into the hit and the entries with other keys. -/
theorem find?_key_perm {l : List (Nat × Nat)} {i : Nat} {pc : Nat × Nat}
    (hnd : (l.map Prod.fst).Nodup)
    (hfind : l.find? (fun p => p.fst == i) = some pc) :
    l.Perm (pc :: l.filter (fun p => p.fst != i)) := by
  induction l with
  | nil => simp at hfind
  | cons hd tl ih =>
    rw [List.map_cons, List.nodup_cons] at hnd
    by_cases hhd : hd.fst = i
    · have hfe : List.find? (fun p => p.fst == i) (hd :: tl) = some hd :=
        List.find?_cons_of_pos _ (by simpa using hhd)
      rw [hfe] at hfind
      injection hfind with hfind
      subst hfind
      have htl : ∀ p ∈ tl, (p.fst != i) = true := by
        intro p hp
        have hne : p.fst ≠ i := by
          intro hpi
          exact hnd.1 (List.mem_map.mpr ⟨p, hp, hpi.trans hhd.symm⟩)
        simpa using hne
      have hfilter : List.filter (fun p => p.fst != i) (hd :: tl) = tl := by
        rw [List.filter_cons_of_neg (by simpa using hhd), List.filter_eq_self.mpr htl]
      rw [hfilter]
    · have hfind' : tl.find? (fun p => p.fst == i) = some pc := by
        rwa [List.find?_cons_of_neg _ (by simpa using hhd)] at hfind
      have ihp := ih hnd.2 hfind'
      rw [List.filter_cons_of_pos (by simpa using hhd)]
      exact List.Perm.trans (ihp.cons hd) (List.Perm.swap pc hd _)

theorem find?_key_spec {l : List (Nat × Nat)} {i : Nat} {pc : Nat × Nat}
    (hfind : l.find? (fun p => p.fst == i) = some pc) :
    pc ∈ l ∧ pc.fst = i :=
  ⟨List.mem_of_find?_eq_some hfind, by simpa using List.find?_some hfind⟩

/-! ### Step equations for `applyChoice` -/

section StepEq

variable {α β : Type} {f : α → Except String β} {tasks : List α} {s : PoolState β}

theorem applyChoice_acq_mem {i c : Nat} {rest : List Nat}
    (hi : i ∈ s.pending) (hacq : acquireOp s.avail = some (c, rest)) :
    applyChoice f tasks s (.acq i)
      = { s with pending := s.pending.erase i
                 inProgress := (i, c) :: s.inProgress
                 avail := rest } := by
  simp [applyChoice, hi, hacq]

theorem applyChoice_acq_empty {i : Nat}
    (hi : i ∈ s.pending) (hacq : acquireOp s.avail = none) :
    applyChoice f tasks s (.acq i) = { s with exhausted := true } := by
  simp [applyChoice, hi, hacq]

theorem applyChoice_acq_not {i : Nat} (hi : i ∉ s.pending) :
    applyChoice f tasks s (.acq i) = s := by
  simp [applyChoice, hi]

theorem applyChoice_fin_ok {i : Nat} {pc : Nat × Nat} {t : α} {b : β}
    (hfind : s.inProgress.find? (fun p => p.fst == i) = some pc)
    (ht : tasks[i]? = some t) (hf : f t = .ok b) :
    applyChoice f tasks s (.fin i)
      = { s with inProgress := s.inProgress.filter (fun p => p.fst != i)
                 results := s.results.set i (some b)
                 avail := releaseOp s.avail pc.snd } := by
  simp [applyChoice, hfind, ht, hf]

theorem applyChoice_fin_error {i : Nat} {pc : Nat × Nat} {t : α} {e : String}
    (hfind : s.inProgress.find? (fun p => p.fst == i) = some pc)
    (ht : tasks[i]? = some t) (hf : f t = .error e) :
    applyChoice f tasks s (.fin i)
      = { s with inProgress := s.inProgress.filter (fun p => p.fst != i)
                 leaked := pc.snd :: s.leaked
                 err := some (s.err.getD e) } := by
  simp [applyChoice, hfind, ht, hf]

theorem applyChoice_fin_notRunning {i : Nat}
    (hfind : s.inProgress.find? (fun p => p.fst == i) = none) :
    applyChoice f tasks s (.fin i) = s := by
  simp [applyChoice, hfind]

theorem applyChoice_fin_noTask {i : Nat} (ht : tasks[i]? = none) :
    applyChoice f tasks s (.fin i) = s := by
  unfold applyChoice
  cases hfind : s.inProgress.find? (fun p => p.fst == i) <;> simp [hfind, ht]

end StepEq

/-! ### The run invariant -/

/-- Shuffling ids between the available / held / leaked segments preserves the
pool decomposition. -/
theorem pool_shift {av av' pr pr' lk lk' : List Nat} {N : Nat}
    (hperm : (av' ++ (pr' ++ lk')).Perm (av ++ (pr ++ lk)))
    (hp : (av : Multiset Nat) + ↑pr + ↑lk = Multiset.range N) :
    (av' : Multiset Nat) + ↑pr' + ↑lk' = Multiset.range N := by
  rw [add_assoc] at hp ⊢
  rw [Multiset.coe_add, Multiset.coe_add] at hp ⊢
  rw [← hp]
  exact Multiset.coe_eq_coe.mpr hperm

theorem inv_init {α β : Type} (f : α → Except String β) (tasks : List α)
    (N : Nat) : Inv f tasks N (initState β tasks.length N) := by
  refine ⟨?_, ?_, ?_, ?_, ?_, ?_, ?_, ?_, ?_, ?_, ?_⟩
  · simp [initState]
  · intro i hi; simpa [initState] using hi
  · simpa [initState] using List.nodup_range tasks.length
  · simp [initState]
  · simp [initState]
  · intro i hi
    have hi' : i < tasks.length := by simpa [initState] using hi
    simp [initState, List.getElem?_replicate, hi']
  · simp [initState]
  · intro i t ht hip _
    exfalso
    obtain ⟨hlt, -⟩ := List.getElem?_eq_some.mp ht
    exact hip (by simpa [initState] using hlt)
  · simp [initState]
  · intro i t ht hip _ _
    exfalso
    obtain ⟨hlt, -⟩ := List.getElem?_eq_some.mp ht
    exact hip (by simpa [initState] using hlt)
  · show ((List.range N : List Nat) : Multiset Nat) + ↑(([] : List (Nat × Nat)).map Prod.snd)
        + ↑([] : List Nat) = Multiset.range N
    simp [Multiset.range]

theorem inv_step {α β : Type} {f : α → Except String β} {tasks : List α}
    {N : Nat} {s : PoolState β} (h : Inv f tasks N s) (ch : Choice) :
    Inv f tasks N (applyChoice f tasks s ch) := by
  cases ch with
  | acq i =>
    by_cases hi : i ∈ s.pending
    · cases hacq : acquireOp s.avail with
      | none =>
        rw [applyChoice_acq_empty hi hacq]
        exact ⟨h.resLen, h.pendLt, h.pendNodup, h.progNodup, h.pendProg,
          h.resPend, h.resProg, h.resDone, h.errSound, h.errDone, h.pool⟩
      | some cr =>
        obtain ⟨c, rest⟩ := cr
        rw [applyChoice_acq_mem hi hacq]
        have havail : s.avail = rest ++ [c] := acquireOp_eq hacq
        refine ⟨h.resLen, ?_, List.Nodup.erase i h.pendNodup, ?_, ?_, ?_, ?_,
          ?_, ?_, ?_, ?_⟩
        · intro j hj
          exact h.pendLt j (List.mem_of_mem_erase hj)
        · rw [List.map_cons, List.nodup_cons]
          refine ⟨?_, h.progNodup⟩
          intro hmem
          obtain ⟨p, hp, hpi⟩ := List.mem_map.mp hmem
          exact h.pendProg i hi p hp hpi
        · intro j hj p hp
          have hjpend : j ∈ s.pending := List.mem_of_mem_erase hj
          have hji : j ≠ i := (h.pendNodup.mem_erase_iff.mp hj).1
          rcases List.mem_cons.mp hp with rfl | hp'
          · exact hji.symm
          · exact h.pendProg j hjpend p hp'
        · intro j hj
          exact h.resPend j (List.mem_of_mem_erase hj)
        · intro p hp
          rcases List.mem_cons.mp hp with rfl | hp'
          · exact h.resPend i hi
          · exact h.resProg p hp'
        · intro j t ht hjp hjg
          have hij : (i : Nat) ≠ j := hjg (i, c) (List.mem_cons_self _ _)
          have hjpend : j ∉ s.pending := fun hjmem =>
            hjp ((List.mem_erase_of_ne hij.symm).mpr hjmem)
          exact h.resDone j t ht hjpend
            (fun p hp => hjg p (List.mem_cons_of_mem _ hp))
        · intro e he
          obtain ⟨j, t, ht, hft, hjp, hjg⟩ := h.errSound e he
          refine ⟨j, t, ht, hft, fun hj => hjp (List.mem_of_mem_erase hj), ?_⟩
          intro p hp
          rcases List.mem_cons.mp hp with rfl | hp'
          · exact fun hh => hjp (hh ▸ hi)
          · exact hjg p hp'
        · intro j t ht hjp hjg hne
          have hij : (i : Nat) ≠ j := hjg (i, c) (List.mem_cons_self _ _)
          have hjpend : j ∉ s.pending := fun hjmem =>
            hjp ((List.mem_erase_of_ne hij.symm).mpr hjmem)
          exact h.errDone j t ht hjpend
            (fun p hp => hjg p (List.mem_cons_of_mem _ hp)) hne
        · refine pool_shift ?_ h.pool
          rw [havail]
          simp only [List.map_cons]
          have heq : rest ++ ((c :: s.inProgress.map Prod.snd) ++ s.leaked)
              = (rest ++ [c]) ++ (s.inProgress.map Prod.snd ++ s.leaked) := by
            simp [List.append_assoc]
          rw [heq]
    · rw [applyChoice_acq_not hi]
      exact h
  | fin i =>
    cases hfind : s.inProgress.find? (fun p => p.fst == i) with
    | none =>
      rw [applyChoice_fin_notRunning hfind]
      exact h
    | some pc =>
      cases ht : tasks[i]? with
      | none =>
        rw [applyChoice_fin_noTask ht]
        exact h
      | some t =>
        obtain ⟨hpcmem, hpci⟩ := find?_key_spec hfind
        have hperm := find?_key_perm h.progNodup hfind
        have hipend : i ∉ s.pending :=
          fun hip => (h.pendProg i hip pc hpcmem) hpci
        obtain ⟨hilt, -⟩ := List.getElem?_eq_some.mp ht
        have hfilter_sub : ∀ p ∈ s.inProgress.filter (fun p => p.fst != i),
            p ∈ s.inProgress ∧ p.fst ≠ i := by
          intro p hp
          have hmf := List.mem_filter.mp hp
          exact ⟨hmf.1, by simpa using hmf.2⟩
        have hprog_iff : ∀ p, p ∈ s.inProgress ↔
            p = pc ∨ p ∈ s.inProgress.filter (fun p => p.fst != i) := by
          intro p
          rw [hperm.mem_iff]
          exact List.mem_cons
        have hnodup' :
            ((s.inProgress.filter (fun p => p.fst != i)).map Prod.fst).Nodup :=
          ((List.filter_sublist _).map Prod.fst).nodup h.progNodup
        have hdone_old : ∀ j, j ≠ i →
            (∀ p ∈ s.inProgress.filter (fun p => p.fst != i), p.fst ≠ j) →
            ∀ p ∈ s.inProgress, p.fst ≠ j := by
          intro j hji hjg p hp
          rcases (hprog_iff p).mp hp with rfl | hp'
          · rw [hpci]
            exact fun hh => hji hh.symm
          · exact hjg p hp'
        have hsnd : (s.inProgress.map Prod.snd).Perm
            (pc.snd :: (s.inProgress.filter (fun p => p.fst != i)).map Prod.snd) := by
          simpa using hperm.map Prod.snd
        cases hf : f t with
        | ok b =>
          rw [applyChoice_fin_ok hfind ht hf]
          refine ⟨?_, h.pendLt, h.pendNodup, hnodup', ?_, ?_, ?_, ?_, ?_, ?_, ?_⟩
          · rw [List.length_set]
            exact h.resLen
          · intro j hj p hp
            exact h.pendProg j hj p (hfilter_sub p hp).1
          · intro j hj
            have hij : i ≠ j := fun hh => hipend (hh ▸ hj)
            rw [List.getElem?_set, if_neg hij]
            exact h.resPend j hj
          · intro p hp
            obtain ⟨hpm, hpi⟩ := hfilter_sub p hp
            rw [List.getElem?_set, if_neg (Ne.symm hpi)]
            exact h.resProg p hpm
          · intro j t' ht' hjp hjg
            by_cases hji : j = i
            · subst hji
              rw [ht] at ht'
              injection ht' with ht''
              subst ht''
              have hjlt : j < s.results.length := by
                rw [h.resLen]; exact hilt
              rw [List.getElem?_set, if_pos rfl, if_pos hjlt, hf]
              rfl
            · rw [List.getElem?_set, if_neg (fun hh => hji hh.symm)]
              exact h.resDone j t' ht' hjp (hdone_old j hji hjg)
          · intro e he
            obtain ⟨j, t', ht', hft', hjp, hjg⟩ := h.errSound e he
            exact ⟨j, t', ht', hft', hjp,
              fun p hp => hjg p (hfilter_sub p hp).1⟩
          · intro j t' ht' hjp hjg hne
            by_cases hji : j = i
            · subst hji
              rw [ht] at ht'
              injection ht' with ht''
              subst ht''
              rw [hf] at hne
              simp [Except.isOk, Except.toBool] at hne
            · exact h.errDone j t' ht' hjp (hdone_old j hji hjg) hne
          · refine pool_shift ?_ h.pool
            have heq : (releaseOp s.avail pc.snd)
                ++ ((s.inProgress.filter (fun p => p.fst != i)).map Prod.snd ++ s.leaked)
                = s.avail ++ ((pc.snd ::
                    (s.inProgress.filter (fun p => p.fst != i)).map Prod.snd) ++ s.leaked) := by
              simp [releaseOp, List.append_assoc]
            rw [heq]
            exact List.Perm.append_left s.avail ((hsnd.symm).append_right s.leaked)
        | error e =>
          rw [applyChoice_fin_error hfind ht hf]
          refine ⟨h.resLen, h.pendLt, h.pendNodup, hnodup', ?_, h.resPend, ?_,
            ?_, ?_, ?_, ?_⟩
          · intro j hj p hp
            exact h.pendProg j hj p (hfilter_sub p hp).1
          · intro p hp
            exact h.resProg p (hfilter_sub p hp).1
          · intro j t' ht' hjp hjg
            by_cases hji : j = i
            · subst hji
              rw [ht] at ht'
              injection ht' with ht''
              subst ht''
              rw [hf]
              have hres := h.resProg pc hpcmem
              rw [hpci] at hres
              simpa [Except.toOption] using hres
            · exact h.resDone j t' ht' hjp (hdone_old j hji hjg)
          · intro e' he'
            injection he' with he''
            cases herr : s.err with
            | some e0 =>
              rw [herr] at he''
              simp at he''
              subst he''
              obtain ⟨j, t', ht', hft', hjp, hjg⟩ := h.errSound e0 herr
              exact ⟨j, t', ht', hft', hjp,
                fun p hp => hjg p (hfilter_sub p hp).1⟩
            | none =>
              rw [herr] at he''
              simp at he''
              subst he''
              exact ⟨i, t, ht, hf, hipend, fun p hp => (hfilter_sub p hp).2⟩
          · intro j t' ht' hjp hjg hne
            rfl
          · refine pool_shift ?_ h.pool
            apply List.Perm.append_left
            exact List.Perm.trans List.perm_middle ((hsnd.symm).append_right s.leaked)

theorem inv_foldl {α β : Type} {f : α → Except String β} {tasks : List α}
    {N : Nat} :
    ∀ (sched : List Choice) (s : PoolState β), Inv f tasks N s →
      Inv f tasks N (sched.foldl (applyChoice f tasks) s)
  | [], _, h => h
  | ch :: rest, s, h => inv_foldl rest _ (inv_step h ch)

theorem inv_runSched {α β : Type} (f : α → Except String β) (tasks : List α)
    (N : Nat) (sched : List Choice) :
    Inv f tasks N (runSched f tasks N sched) :=
  inv_foldl sched _ (inv_init f tasks N)

/-! ### Consequences of the invariant -/

theorem mem_of_getElem?_task {α : Type} {tasks : List α} {i : Nat} {t : α}
    (ht : tasks[i]? = some t) : t ∈ tasks := by
  obtain ⟨hlt, hget⟩ := List.getElem?_eq_some.mp ht
  exact hget ▸ List.getElem_mem hlt

/-- If no task's operation raises, no exception is ever stored. -/
theorem err_none_of_ok {α β : Type} {f : α → Except String β} {tasks : List α}
    {N : Nat} {s : PoolState β} (h : Inv f tasks N s)
    (hok : ∀ a ∈ tasks, (f a).isOk = true) : s.err = none := by
  cases herr : s.err with
  | none => rfl
  | some e =>
    exfalso
    obtain ⟨i, t, ht, hft, -, -⟩ := h.errSound e herr
    have hmem := mem_of_getElem?_task ht
    have hok' := hok t hmem
    rw [hft] at hok'
    simp [Except.isOk, Except.toBool] at hok'

/-- In a completed error-free run every result slot holds its task's value. -/
theorem results_of_terminal {α β : Type} {f : α → Except String β} {g : α → β}
    {tasks : List α} {N : Nat} {s : PoolState β} (h : Inv f tasks N s)
    (hok : ∀ a ∈ tasks, f a = .ok (g a)) (hterm : terminal s = true) :
    s.results = tasks.map (fun t => some (g t)) := by
  have hterm' : s.pending = [] ∧ s.inProgress = [] := by
    simpa [terminal, List.isEmpty_iff, Bool.and_eq_true] using hterm
  apply List.ext_getElem?
  intro n
  rw [List.getElem?_map]
  by_cases hn : n < tasks.length
  · obtain ⟨t, ht⟩ : ∃ t, tasks[n]? = some t := by
      rw [List.getElem?_eq_getElem hn]
      exact ⟨tasks[n], rfl⟩
    have hdone := h.resDone n t ht (by simp [hterm'.1]) (by simp [hterm'.2])
    rw [hdone, ht, hok t (mem_of_getElem?_task ht)]
    rfl
  · have h1 : s.results[n]? = none := List.getElem?_eq_none (by rw [h.resLen]; omega)
    have h2 : tasks[n]? = none := List.getElem?_eq_none (by omega)
    rw [h1, h2]
    rfl

/-- Fan-in alignment: a completed error-free `map_async(...).get()` returns
exactly the per-task values, in task-submission order, whatever the
schedule did. -/
theorem mapAsyncGet_ok {α β : Type} (f : α → Except String β) (g : α → β)
    (tasks : List α) (N : Nat) (sched : List Choice)
    (hok : ∀ a ∈ tasks, f a = .ok (g a))
    (hterm : terminal (runSched f tasks N sched) = true) :
    mapAsyncGet f tasks N sched = .ok (tasks.map g) := by
  have hinv := inv_runSched f tasks N sched
  have hok' : ∀ a ∈ tasks, (f a).isOk = true := by
    intro a ha
    rw [hok a ha]
    rfl
  have herr := err_none_of_ok hinv hok'
  have hres := results_of_terminal hinv hok hterm
  unfold mapAsyncGet collect
  rw [herr, hres, List.filterMap_map]
  have hcomp : (id ∘ fun t => some (g t)) = some ∘ g := rfl
  rw [hcomp, List.filterMap_eq_map]

/-- Fan-in failure: if the only failing task has completed, `get()` raises
exactly its exception, regardless of what else the schedule did. -/
theorem mapAsyncGet_error {α β : Type} (f : α → Except String β)
    (tasks : List α) (N : Nat) (sched : List Choice) (k : Nat) (bad : α)
    (e : String) (hk : tasks[k]? = some bad) (hbad : f bad = .error e)
    (hok : ∀ t ∈ tasks, t ≠ bad → (f t).isOk = true)
    (hkp : k ∉ (runSched f tasks N sched).pending)
    (hkg : ∀ p ∈ (runSched f tasks N sched).inProgress, p.fst ≠ k) :
    mapAsyncGet f tasks N sched = .error e := by
  have hinv := inv_runSched f tasks N sched
  have hsome : (runSched f tasks N sched).err.isSome = true :=
    hinv.errDone k bad hk hkp hkg (by rw [hbad]; rfl)
  obtain ⟨e', he'⟩ := Option.isSome_iff_exists.mp hsome
  obtain ⟨j, t, ht, hft, -, -⟩ := hinv.errSound e' he'
  have hmem := mem_of_getElem?_task ht
  by_cases htb : t = bad
  · subst htb
    rw [hbad] at hft
    injection hft with hfe
    subst hfe
    unfold mapAsyncGet collect
    rw [he']
  · exfalso
    have hok' := hok t hmem htb
    rw [hft] at hok'
    simp [Except.isOk, Except.toBool] at hok'

/-- A step of an error-free run never leaks a connection. -/
theorem leaked_nil_step {α β : Type} {f : α → Except String β} {tasks : List α}
    {s : PoolState β} (hok : ∀ a ∈ tasks, (f a).isOk = true)
    (hlk : s.leaked = []) (ch : Choice) :
    (applyChoice f tasks s ch).leaked = [] := by
  cases ch with
  | acq i =>
    by_cases hi : i ∈ s.pending
    · cases hacq : acquireOp s.avail with
      | none => rw [applyChoice_acq_empty hi hacq]; exact hlk
      | some cr =>
        obtain ⟨c, rest⟩ := cr
        rw [applyChoice_acq_mem hi hacq]
        exact hlk
    · rw [applyChoice_acq_not hi]; exact hlk
  | fin i =>
    cases hfind : s.inProgress.find? (fun p => p.fst == i) with
    | none => rw [applyChoice_fin_notRunning hfind]; exact hlk
    | some pc =>
      cases ht : tasks[i]? with
      | none => rw [applyChoice_fin_noTask ht]; exact hlk
      | some t =>
        cases hf : f t with
        | ok b => rw [applyChoice_fin_ok hfind ht hf]; exact hlk
        | error e =>
          exfalso
          have hok' := hok t (mem_of_getElem?_task ht)
          rw [hf] at hok'
          simp [Except.isOk, Except.toBool] at hok'

/-- A step of an error-free leak-free run that respects the thread bound
`W ≤ N` never executes the empty pop. -/
theorem exhausted_step {α β : Type} {f : α → Except String β} {tasks : List α}
    {N W : Nat} {s : PoolState β} (hinv : Inv f tasks N s) (hW : W ≤ N)
    (hlk : s.leaked = []) (hex : s.exhausted = false) (ch : Choice)
    (hb : (match ch with
           | .acq i => !decide (i ∈ s.pending) || decide (s.inProgress.length < W)
           | .fin _ => true) = true) :
    (applyChoice f tasks s ch).exhausted = false := by
  cases ch with
  | acq i =>
    by_cases hi : i ∈ s.pending
    · have hbound : s.inProgress.length < W := by
        simpa [hi] using hb
      have hcard : s.avail.length + s.inProgress.length = N := by
        have hp := hinv.pool
        rw [hlk] at hp
        have hc := congrArg Multiset.card hp
        simpa [Multiset.card_add, Multiset.coe_card, Multiset.card_range] using hc
      have hnonempty : s.avail ≠ [] := by
        intro hn
        rw [hn] at hcard
        simp at hcard
        omega
      obtain ⟨c, rest, hacq⟩ := acquireOp_isSome hnonempty
      rw [applyChoice_acq_mem hi hacq]
      exact hex
    · rw [applyChoice_acq_not hi]
      exact hex
  | fin i =>
    cases hfind : s.inProgress.find? (fun p => p.fst == i) with
    | none => rw [applyChoice_fin_notRunning hfind]; exact hex
    | some pc =>
      cases ht : tasks[i]? with
      | none => rw [applyChoice_fin_noTask ht]; exact hex
      | some t =>
        cases hf : f t with
        | ok b => rw [applyChoice_fin_ok hfind ht hf]; exact hex
        | error e => rw [applyChoice_fin_error hfind ht hf]; exact hex

theorem wBounded_cons {α β : Type} (f : α → Except String β) (tasks : List α)
    (W : Nat) (s : PoolState β) (ch : Choice) (rest : List Choice) :
    wBounded f tasks W s (ch :: rest)
      = ((match ch with
          | .acq i => !decide (i ∈ s.pending) || decide (s.inProgress.length < W)
          | .fin _ => true)
         && wBounded f tasks W (applyChoice f tasks s ch) rest) := rfl

/-- Along any `W`-bounded schedule of an error-free run with `W ≤ N`, the
empty-list pop is never executed. -/
theorem no_empty_pop {α β : Type} {f : α → Except String β} {tasks : List α}
    {N W : Nat} (hW : W ≤ N) (hok : ∀ a ∈ tasks, (f a).isOk = true) :
    ∀ (sched : List Choice) (s : PoolState β), Inv f tasks N s →
      s.leaked = [] → s.exhausted = false →
      wBounded f tasks W s sched = true →
      (sched.foldl (applyChoice f tasks) s).exhausted = false := by
  intro sched
  induction sched with
  | nil =>
    intro s _ _ hex _
    exact hex
  | cons ch rest ih =>
    intro s hinv hlk hex hb
    rw [wBounded_cons] at hb
    obtain ⟨hb1, hb2⟩ := (Bool.and_eq_true _ _).mp hb
    rw [List.foldl_cons]
    exact ih _ (inv_step hinv ch) (leaked_nil_step hok hlk ch)
      (exhausted_step hinv hW hlk hex ch hb1) hb2

/-! ### Claim theorems -/

/-- Claim C1: for every ordered task list, a completed worker-pool run (the
`pool.map_async(...).get()` used by both phases of `scrape`) returns exactly
one result per task, positionally aligned to the submitted task list — for
every schedule, hence independently of the order in which workers complete
the tasks, and for any task-list length including 0 and lengths exceeding the
pool size. -/
theorem C1_run_results_aligned {α β : Type} (f : α → Except String β)
    (g : α → β) (tasks : List α) (N : Nat) (sched : List Choice)
    (hok : ∀ a ∈ tasks, f a = .ok (g a))
    (hterm : terminal (runSched f tasks N sched) = true) :
    mapAsyncGet f tasks N sched = .ok (tasks.map g) ∧
      (tasks.map g).length = tasks.length :=
  ⟨mapAsyncGet_ok f g tasks N sched hok hterm, List.length_map tasks g⟩

/-- Concrete instance of C1: three tasks on a pool of size 2 (more tasks than
pool), under a schedule that completes task 1 before task 0, and the empty
task list; the results come back in submission order. -/
theorem C1_run_results_aligned_witness :
    (mapAsyncGet (fun n : Nat => Except.ok (n + 1)) [10, 20, 30] 2
        [Choice.acq 0, Choice.acq 1, Choice.fin 1, Choice.fin 0,
         Choice.acq 2, Choice.fin 2]
      = .ok ([10, 20, 30].map (fun n => n + 1))) ∧
    (mapAsyncGet (fun n : Nat => Except.ok (n + 1)) ([] : List Nat) 2 []
      = .ok (([] : List Nat).map (fun n => n + 1))) :=
  ⟨(C1_run_results_aligned (fun n : Nat => Except.ok (n + 1)) (fun n => n + 1)
      [10, 20, 30] 2
      [Choice.acq 0, Choice.acq 1, Choice.fin 1, Choice.fin 0,
       Choice.acq 2, Choice.fin 2]
      (fun _ _ => rfl) (by decide)).1,
   (C1_run_results_aligned (fun n : Nat => Except.ok (n + 1)) (fun n => n + 1)
      ([] : List Nat) 2 [] (fun _ _ => rfl) (by decide)).1⟩

/-- Claim C2: `scrape` flattens the phase-A `(mailbox, ids)` pairs into the
concatenation, per mailbox in phase-A order, of one `(mailbox, id)` pair per
id in per-mailbox enumeration order, and a completed run returns exactly one
message per flattened pair, positionally aligned to that flattened
sequence, whatever order the two phases' workers completed their tasks in. -/
theorem C2_scrape_flatten_aligned (imap : Imap) (mbs : List String)
    (s1 s2 : List Choice)
    (hsel : ∀ mb ∈ mbs, imap.selectStatus mb = IMAP_OK)
    (hsearch : ∀ mb ∈ mbs, imap.searchStatus mb = IMAP_OK)
    (hfetch : ∀ p ∈ flattenIds (mbs.map fun mb => (mb, imap.searchIds mb)),
        imap.fetchStatus p.fst p.snd = IMAP_OK)
    (hterm1 : terminal (runSched (fetch_message_ids imap) mbs
        scrapeConnectionIds.length s1) = true)
    (hterm2 : terminal (runSched (fun p => fetch_message imap p.fst p.snd)
        (flattenIds (mbs.map fun mb => (mb, imap.searchIds mb)))
        scrapeConnectionIds.length s2) = true) :
    scrape imap (some mbs) s1 s2
      = .ok ((flattenIds (mbs.map fun mb => (mb, imap.searchIds mb))).map
          (fun p => imap.fetchBody p.fst p.snd)) ∧
    ((flattenIds (mbs.map fun mb => (mb, imap.searchIds mb))).map
        (fun p => imap.fetchBody p.fst p.snd)).length
      = (flattenIds (mbs.map fun mb => (mb, imap.searchIds mb))).length := by
  have hmemfst : ∀ (l : List String) (p : String × String),
      p ∈ flattenIds (l.map fun mb => (mb, imap.searchIds mb)) → p.fst ∈ l := by
    intro l
    induction l with
    | nil =>
      intro p hp
      simp [flattenIds] at hp
    | cons mb rest ih =>
      intro p hp
      rw [List.map_cons, flattenIds, List.mem_append] at hp
      rcases hp with hp | hp
      · obtain ⟨i, -, hpi⟩ := List.mem_map.mp hp
        rw [← hpi]
        exact List.mem_cons_self _ _
      · exact List.mem_cons_of_mem _ (ih p hp)
  have hA : mapAsyncGet (fetch_message_ids imap) mbs
      scrapeConnectionIds.length s1
      = .ok (mbs.map fun mb => (mb, imap.searchIds mb)) := by
    refine mapAsyncGet_ok _ _ _ _ _ ?_ hterm1
    intro mb hmb
    unfold fetch_message_ids
    rw [if_neg (by simp [hsel mb hmb]), if_neg (by simp [hsearch mb hmb])]
  have hB : mapAsyncGet (fun p => fetch_message imap p.fst p.snd)
      (flattenIds (mbs.map fun mb => (mb, imap.searchIds mb)))
      scrapeConnectionIds.length s2
      = .ok ((flattenIds (mbs.map fun mb => (mb, imap.searchIds mb))).map
          (fun p => imap.fetchBody p.fst p.snd)) := by
    refine mapAsyncGet_ok _ _ _ _ _ ?_ hterm2
    intro p hp
    unfold fetch_message
    rw [if_neg (by simp [hsel p.fst (hmemfst mbs p hp)]),
      if_neg (by simp [hfetch p hp])]
  refine ⟨?_, List.length_map _ _⟩
  unfold scrape
  show (mapAsyncGet (fetch_message_ids imap) (scrapeMailboxes imap (some mbs))
      scrapeConnectionIds.length s1).bind _ = _
  rw [show scrapeMailboxes imap (some mbs) = mbs from rfl, hA]
  show (mapAsyncGet (fun p => fetch_message imap p.fst p.snd)
      (flattenIds (mbs.map fun mb => (mb, imap.searchIds mb)))
      scrapeConnectionIds.length s2).bind _ = _
  rw [hB]
  rfl

/-- Concrete instance of C2, the end-to-end scenario: mailboxes
`["INBOX","Sent"]`, INBOX enumerating `1,2` and Sent enumerating `3`; the
flattened sequence is `[(INBOX,1),(INBOX,2),(Sent,3)]`, and `scrape` returns
exactly its three messages in that order although phase A completes Sent
before INBOX and phase B serves `(Sent,3)` first. -/
theorem C2_scrape_flatten_aligned_witness :
    flattenIds (["INBOX", "Sent"].map fun mb => (mb, demoImap.searchIds mb))
      = [("INBOX", "1"), ("INBOX", "2"), ("Sent", "3")] ∧
    scrape demoImap (some ["INBOX", "Sent"])
        [Choice.acq 0, Choice.acq 1, Choice.fin 1, Choice.fin 0]
        [Choice.acq 2, Choice.fin 2, Choice.acq 0, Choice.acq 1,
         Choice.fin 0, Choice.fin 1]
      = .ok ((flattenIds
          (["INBOX", "Sent"].map fun mb => (mb, demoImap.searchIds mb))).map
            (fun p => demoImap.fetchBody p.fst p.snd)) ∧
    (flattenIds
        (["INBOX", "Sent"].map fun mb => (mb, demoImap.searchIds mb))).map
          (fun p => demoImap.fetchBody p.fst p.snd)
      = ["INBOX:1", "INBOX:2", "Sent:3"] :=
  ⟨by decide,
   (C2_scrape_flatten_aligned demoImap ["INBOX", "Sent"]
      [Choice.acq 0, Choice.acq 1, Choice.fin 1, Choice.fin 0]
      [Choice.acq 2, Choice.fin 2, Choice.acq 0, Choice.acq 1,
       Choice.fin 0, Choice.fin 1]
      (by decide) (by decide) (by decide) (by decide) (by decide)).1,
   by decide⟩

/-- Claim C3: in every pool state reachable outside the lock-protected
critical sections, the number of available connection ids plus the number of
leased ids (held by a running worker, or kept forever by a worker whose task
raised) equals `N`; no id is in the available list while it is leased; and
initially all `N` ids `0..N-1` are available. -/
theorem C3_pool_lease_invariant {α β : Type} (f : α → Except String β)
    (tasks : List α) (N : Nat) (sched : List Choice) :
    (initState β tasks.length N).avail = List.range N ∧
    (runSched f tasks N sched).avail.length
        + (leasedIds (runSched f tasks N sched)).length = N ∧
    ∀ c ∈ (runSched f tasks N sched).avail,
      c ∉ leasedIds (runSched f tasks N sched) := by
  have hinv := inv_runSched f tasks N sched
  refine ⟨rfl, ?_, ?_⟩
  · have hc := congrArg Multiset.card hinv.pool
    simp only [Multiset.card_add, Multiset.coe_card, Multiset.card_range] at hc
    simp only [leasedIds, List.length_append, List.length_map] at *
    omega
  · intro c hca hcl
    have hcount := congrArg (Multiset.count c) hinv.pool
    simp only [Multiset.count_add, Multiset.coe_count] at hcount
    have h1 : 0 < (runSched f tasks N sched).avail.count c :=
      List.count_pos_iff.mpr hca
    rw [leasedIds, List.mem_append] at hcl
    have hrange : Multiset.count c (Multiset.range N) ≤ 1 :=
      Multiset.nodup_iff_count_le_one.mp (Multiset.nodup_range N) c
    rcases hcl with hcl | hcl
    · have h2 : 0 < ((runSched f tasks N sched).inProgress.map Prod.snd).count c :=
        List.count_pos_iff.mpr hcl
      omega
    · have h2 : 0 < (runSched f tasks N sched).leaked.count c :=
        List.count_pos_iff.mpr hcl
      omega

/-- Concrete instance of C3: pool of 3 ids, two tasks, after a schedule that
leaves task 1 running: available plus leased ids still number 3 and are
disjoint. -/
theorem C3_pool_lease_invariant_witness :
    (initState Nat 2 3).avail = List.range 3 ∧
    (runSched (fun n : Nat => Except.ok n) [5, 7] 3
        [Choice.acq 0, Choice.fin 0, Choice.acq 1]).avail.length
      + (leasedIds (runSched (fun n : Nat => Except.ok n) [5, 7] 3
          [Choice.acq 0, Choice.fin 0, Choice.acq 1])).length = 3 ∧
    ∀ c ∈ (runSched (fun n : Nat => Except.ok n) [5, 7] 3
        [Choice.acq 0, Choice.fin 0, Choice.acq 1]).avail,
      c ∉ leasedIds (runSched (fun n : Nat => Except.ok n) [5, 7] 3
        [Choice.acq 0, Choice.fin 0, Choice.acq 1]) :=
  C3_pool_lease_invariant (fun n : Nat => Except.ok n) [5, 7] 3
    [Choice.acq 0, Choice.fin 0, Choice.acq 1]

/-- Claim C4: once a failing task of a worker-pool run has completed, the
whole `map_async(...).get()` call fails with that task's error and returns
no result list at all, regardless of what else the schedule did — in
particular even if every other task already completed successfully. -/
theorem C4_run_error_aborts {α β : Type} (f : α → Except String β)
    (tasks : List α) (N : Nat) (sched : List Choice) (k : Nat) (bad : α)
    (e : String) (hk : tasks[k]? = some bad) (hbad : f bad = .error e)
    (hok : ∀ t ∈ tasks, t ≠ bad → (f t).isOk = true)
    (hkdone : k ∉ (runSched f tasks N sched).pending ∧
      ∀ p ∈ (runSched f tasks N sched).inProgress, p.fst ≠ k) :
    mapAsyncGet f tasks N sched = .error e :=
  mapAsyncGet_error f tasks N sched k bad e hk hbad hok hkdone.1 hkdone.2

set_option maxHeartbeats 2000000 in
/-- Concrete instance of C4, the spec §8 fault scenario: the fetch for
`(Sent,3)` fails after `(INBOX,1)` and `(INBOX,2)` completed successfully;
the phase-B run and the whole `scrape` call fail with that `FetchError` and
return no messages. -/
theorem C4_run_error_aborts_witness :
    mapAsyncGet (fun p => fetch_message faultImap p.fst p.snd)
        [("INBOX", "1"), ("INBOX", "2"), ("Sent", "3")] 10
        [Choice.acq 0, Choice.fin 0, Choice.acq 1, Choice.fin 1,
         Choice.acq 2, Choice.fin 2]
      = .error "Failed to retrieve message 3 from mailbox Sent." ∧
    scrape faultImap (some ["INBOX", "Sent"])
        [Choice.acq 0, Choice.acq 1, Choice.fin 1, Choice.fin 0]
        [Choice.acq 0, Choice.fin 0, Choice.acq 1, Choice.fin 1,
         Choice.acq 2, Choice.fin 2]
      = .error "Failed to retrieve message 3 from mailbox Sent." :=
  ⟨C4_run_error_aborts (fun p => fetch_message faultImap p.fst p.snd)
      [("INBOX", "1"), ("INBOX", "2"), ("Sent", "3")] 10
      [Choice.acq 0, Choice.fin 0, Choice.acq 1, Choice.fin 1,
       Choice.acq 2, Choice.fin 2]
      2 ("Sent", "3") "Failed to retrieve message 3 from mailbox Sent."
      (by decide) (by decide) (by decide) (by decide),
   by decide⟩

/-- Claim C5: for every mailbox, `fetch_message_ids` fails with an error when
folder selection does not report success (the `imaplib` SEARCH-in-AUTH
exception: the wrapper's own check never sees the SELECT status, which it
overwrites) or when the search does not report success (the wrapper's own
exception), and otherwise returns the pair of the mailbox and its enumerated
message-id sequence. -/
theorem C5_fetch_message_ids_status (imap : Imap) (mb : String) :
    (imap.selectStatus mb ≠ IMAP_OK → (fetch_message_ids imap mb).isOk = false) ∧
    (imap.searchStatus mb ≠ IMAP_OK → (fetch_message_ids imap mb).isOk = false) ∧
    (imap.selectStatus mb = IMAP_OK → imap.searchStatus mb = IMAP_OK →
      fetch_message_ids imap mb = .ok (mb, imap.searchIds mb)) := by
  unfold fetch_message_ids
  refine ⟨?_, ?_, ?_⟩
  · intro h
    rw [if_pos h]
    rfl
  · intro h
    by_cases hs : imap.selectStatus mb ≠ IMAP_OK
    · rw [if_pos hs]
      rfl
    · rw [if_neg hs, if_pos h]
      rfl
  · intro h1 h2
    rw [if_neg (by simp [h1]), if_neg (by simp [h2])]

/-- Concrete instance of C5: a rejected SELECT makes the enumeration fail,
a rejected SEARCH makes it fail, and with both OK it returns the mailbox
paired with its ids. -/
theorem C5_fetch_message_ids_status_witness :
    (fetch_message_ids selFailImap "INBOX").isOk = false ∧
    (fetch_message_ids searchFailImap "INBOX").isOk = false ∧
    fetch_message_ids demoImap "INBOX" = .ok ("INBOX", ["1", "2"]) :=
  ⟨(C5_fetch_message_ids_status selFailImap "INBOX").1 (by decide),
   (C5_fetch_message_ids_status searchFailImap "INBOX").2.1 (by decide),
   (C5_fetch_message_ids_status demoImap "INBOX").2.2 (by decide) (by decide)⟩

/-- Claim C6 (amended): the worker count `W = min(poolSize, 2 * cpuCount)`
never exceeds the pool size, and in a run where no task's operation raises,
every schedule in which at most `W` workers are concurrently between acquire
and release never executes the pop on an empty available list.  (The
error-free condition is forced by the counterexample: a raising task skips
its release and permanently leaks its connection.) -/
theorem C6_workers_bound_no_empty_pop {α β : Type} (f : α → Except String β)
    (tasks : List α) (N cpu : Nat) (sched : List Choice)
    (hok : ∀ a ∈ tasks, (f a).isOk = true)
    (hb : wBounded f tasks (workers N cpu) (initState β tasks.length N) sched
      = true) :
    workers N cpu ≤ N ∧ (runSched f tasks N sched).exhausted = false := by
  refine ⟨Nat.min_le_left _ _, ?_⟩
  exact no_empty_pop (Nat.min_le_left _ _) hok sched _ (inv_init f tasks N)
    rfl rfl hb

/-- Concrete instance of the amended C6: three error-free tasks on a pool of
size 2 with `W = workers 2 1 = 2`; the bounded schedule never pops an empty
list. -/
theorem C6_workers_bound_no_empty_pop_witness :
    workers 2 1 ≤ 2 ∧
      (runSched (fun n : Nat => Except.ok n) [0, 1, 2] 2
        [Choice.acq 0, Choice.acq 1, Choice.fin 0, Choice.fin 1,
         Choice.acq 2, Choice.fin 2]).exhausted = false :=
  C6_workers_bound_no_empty_pop (fun n : Nat => Except.ok n) [0, 1, 2] 2 1
    [Choice.acq 0, Choice.acq 1, Choice.fin 0, Choice.fin 1,
     Choice.acq 2, Choice.fin 2]
    (fun _ _ => rfl) (by decide)

/-- Counterexample to C6 as stated: pool size `N = 1`, worker bound
`W = workers 1 1 = 1 ≤ N`, and a schedule in which at most one worker is ever
inside the acquire/release region — yet the pop executes on an empty
available list: task 0 raises, so its worker never reaches the append
(gmail.py line 116) and the single connection leaks; the acquire for task 1
then pops the empty list (`IndexError`). -/
theorem C6_counterexample :
    workers 1 1 = 1 ∧
    wBounded c6BadTask [0, 1] 1 (initState Nat 2 1)
      [Choice.acq 0, Choice.fin 0, Choice.acq 1] = true ∧
    (runSched c6BadTask [0, 1] 1
      [Choice.acq 0, Choice.fin 0, Choice.acq 1]).exhausted = true :=
  ⟨rfl, by decide, by decide⟩

/-- Claim C7: every mailbox in `get_mailboxes`' output is the parse of a raw
listing entry that does not carry the `'[Gmail]'` reserved-namespace marker
(marker entries are excluded), and when `scrape`'s caller supplies no mailbox
list the default mailbox set is obtained exactly this way from one session's
listing, so it contains no reserved-namespace mailbox. -/
theorem C7_default_mailboxes_filtered (imap : Imap) :
    ∀ x ∈ scrapeMailboxes imap none,
      ∃ m, m ∈ imap.rawList ∧ containsGmail m.toList = false
        ∧ x = parse_mailbox m := by
  intro x hx
  obtain ⟨m, hm, hpm⟩ := List.mem_map.mp hx
  have hmf := List.mem_filter.mp hm
  exact ⟨m, hmf.1, by simpa using hmf.2, hpm.symm⟩

/-- Concrete instance of C7: `demoImap`'s raw listing carries two `[Gmail]`
entries; the default mailbox set is `["INBOX","Sent"]`, and its member
`"INBOX"` comes from a marker-free raw entry. -/
theorem C7_default_mailboxes_filtered_witness :
    scrapeMailboxes demoImap none = ["INBOX", "Sent"] ∧
    ∃ m, m ∈ demoImap.rawList ∧ containsGmail m.toList = false
      ∧ "INBOX" = parse_mailbox m :=
  ⟨by decide, C7_default_mailboxes_filtered demoImap "INBOX" (by decide)⟩

/-- Claim C9 is refuted by the code (code bug): `scrape` accepts no pool-size
input at all — its sessions always number `CONNECTION_POOL_SIZE = 10` — and
`__main__` parses `--connections` but never passes it to `scrape`, so a CLI
run with `--connections 2` still creates 10 sessions. -/
theorem C9_connections_arg_ignored :
    mainSessionCount
        ⟨"imap.gmail.com", "user", "pw", "gmail.pickle", none, 2⟩ = 10 ∧
      (10 : Nat) ≠ 2 ∧ CONNECTION_POOL_SIZE = 10 :=
  ⟨rfl, by decide, rfl⟩

/-- Claim C10 (LIFO): acquire pops the identity at the tail of the available
list and release appends to the tail, so after a release the next acquire
returns exactly the identity just released and restores the list to its state
before the release. -/
theorem C10_lifo_acquire_after_release (avail : List Nat) (c : Nat) :
    acquireOp (releaseOp avail c) = some (c, avail) := by
  unfold acquireOp releaseOp
  rw [List.getLast?_concat, List.dropLast_concat]

/-- Concrete instance of C10: after releasing id `2` onto `[0, 1]`, the next
acquire returns `2` and leaves `[0, 1]`. -/
theorem C10_lifo_acquire_after_release_witness :
    acquireOp (releaseOp [0, 1] 2) = some (2, [0, 1]) :=
  C10_lifo_acquire_after_release [0, 1] 2

/-- Claim C8: an acquire (pop of one identity from the available list under
the lock) immediately followed by a release of the same identity (append
under the lock) restores the available list's membership exactly. -/
theorem C8_acquire_release_membership (avail : List Nat) (c : Nat)
    (rest : List Nat) (h : acquireOp avail = some (c, rest)) :
    ∀ x, x ∈ releaseOp rest c ↔ x ∈ avail := by
  intro x
  rw [releaseOp, acquireOp_eq h]

/-- Concrete instance of C8: popping `2` from `[0,1,2]` and appending it back
restores the available ids. -/
theorem C8_acquire_release_membership_witness :
    acquireOp [0, 1, 2] = some (2, [0, 1]) ∧
      ∀ x, x ∈ releaseOp [0, 1] 2 ↔ x ∈ [0, 1, 2] :=
  ⟨by decide, C8_acquire_release_membership [0, 1, 2] 2 [0, 1] (by decide)⟩

end MailAnalysis
